import Mathlib

set_option linter.unusedSectionVars false

/-!
# Verification of the `sets` Go package

A Go value of type `Set[T] = map[T]struct` is modelled by the list of its
keys in the map's current iteration order.  The defining invariant of a Go
map is that this key list has no duplicates (`List.Nodup`).  Go's iteration
order over a map is unspecified, so theorems about a set quantify over every
key list (every admissible iteration order), and properties that depend on
the order of iteration are settled by exhibiting an admissible order.

Each Go `for key := range m` loop becomes a `List.foldl` over the key list;
the map assignment `m[k] = ...` becomes `goInsert` (append the key if it is
absent, keep the list otherwise) and `delete(m, k)` becomes `List.erase`.

Reference semantics (Go maps are reference types, so `Clone` / `Merge` make
claims about aliasing) is modelled by a small store `Heap T`: a list of map
values addressed by index, with `allocOp` for `make(map...)`.

`int64` elements are modelled as `Int`: the library applies only equality
and `<` to elements, never arithmetic, so no wrap-around behaviour is lost.
-/

namespace sets

/-- A Go `map[T]struct` value: its key list in iteration order. -/
abbrev Set (T : Type) : Type := List T

variable {T : Type} [DecidableEq T]

/-- Go map assignment `m[k] = struct` value: a no-op when the key is
already present, otherwise the key is added (appended to the key list). -/
def goInsert (s : Set T) (k : T) : Set T :=
  if s.contains k then s else s ++ [k]

/-- `Contains` returns true if and only if item is contained in the set
(Go: `_, contained := s[item]`). -/
def Set.Contains (s : Set T) (item : T) : Bool :=
  s.contains item

/-- `Insert` adds items to the set. -/
def Set.Insert (s : Set T) (items : List T) : Set T :=
  items.foldl goInsert s

/-- `Delete` removes all items from the set. -/
def Set.Delete (s : Set T) (items : List T) : Set T :=
  items.foldl (fun m item => m.erase item) s

/-- `New` creates a set from a list of values. -/
def New (items : List T) : Set T :=
  Set.Insert [] items

/-- `NewFrom` creates a set from the keys of a map (the key list `m`). -/
def NewFrom (m : List T) : Set T :=
  m.foldl goInsert []

/-- `Len` returns the size of the set (Go: `len(s)`). -/
def Set.Len (s : Set T) : Nat :=
  s.length

/-- `Difference` returns a set of objects of `s` that are not in `s2`. -/
def Set.Difference (s s2 : Set T) : Set T :=
  s.foldl (fun result key => if Set.Contains s2 key then result else goInsert result key) []

/-- `DifferenceSlice` returns a slice of objects of `s` that are not in `s2`. -/
def Set.DifferenceSlice (s s2 : Set T) : List T :=
  s.foldl (fun result key => if Set.Contains s2 key then result else result ++ [key]) []

/-- `Union` returns a new set which includes items in either `s` or `s2`:
one insertion loop over `s`, then one over `s2`. -/
def Set.Union (s s2 : Set T) : Set T :=
  s2.foldl goInsert (s.foldl goInsert [])

/-- `UnionSlice` returns a slice which includes items in either `s` or `s2`:
all keys of `s`, then the keys of `s2` that are not in `s`. -/
def Set.UnionSlice (s s2 : Set T) : List T :=
  s2.foldl (fun result key => if Set.Contains s key then result else result ++ [key])
    (s.foldl (fun result key => result ++ [key]) [])

/-- `Intersection` returns a new set of the items in both `s` and `s2`;
the code walks the smaller operand and probes the larger. -/
def Set.Intersection (s s2 : Set T) : Set T :=
  let walk := if Set.Len s < Set.Len s2 then s else s2
  let other := if Set.Len s < Set.Len s2 then s2 else s
  walk.foldl (fun ret key => if Set.Contains other key then goInsert ret key else ret) []

/-- `IntersectionSlice` returns a slice of the items in both `s` and `s2`;
the code walks the smaller operand and probes the larger. -/
def Set.IntersectionSlice (s s2 : Set T) : List T :=
  let walk := if Set.Len s < Set.Len s2 then s else s2
  let other := if Set.Len s < Set.Len s2 then s2 else s
  walk.foldl (fun ret key => if Set.Contains other key then ret ++ [key] else ret) []

/-- `Diff` returns the diff of `s` against `s2` as `(added, removed, remained)`:
one loop over `s` splitting into remained/removed, one loop over `s2`
collecting added. -/
def Set.Diff (s s2 : Set T) : Set T × Set T × Set T :=
  let rr := s.foldl
    (fun (pr : Set T × Set T) key =>
      if Set.Contains s2 key then (pr.1, goInsert pr.2 key) else (goInsert pr.1 key, pr.2))
    ([], [])
  let added := s2.foldl
    (fun added key => if Set.Contains s key then added else goInsert added key) []
  (added, rr.1, rr.2)

/-- `DiffSlice` returns the diff of `s` against `s2` as slices
`(added, removed, remained)`. -/
def Set.DiffSlice (s s2 : Set T) : List T × List T × List T :=
  let rr := s.foldl
    (fun (pr : List T × List T) key =>
      if Set.Contains s2 key then (pr.1, pr.2 ++ [key]) else (pr.1 ++ [key], pr.2))
    ([], [])
  let added := s2.foldl
    (fun added key => if Set.Contains s key then added else added ++ [key]) []
  (added, rr.1, rr.2)

/-- `Merge` is like `Union` but modifies the current set in place:
every key of `s2` is inserted into `s`. -/
def Set.Merge (s s2 : Set T) : Set T :=
  s2.foldl goInsert s

/-- `IsSuperset` returns true iff every item of `s2` is contained in `s`
(Go loop with early `return false`). -/
def Set.IsSuperset (s s2 : Set T) : Bool :=
  s2.all (fun item => Set.Contains s item)

/-- `IsSubset` returns true iff every item of `s` is contained in `s2`. -/
def Set.IsSubset (s s2 : Set T) : Bool :=
  s.all (fun item => Set.Contains s2 item)

/-- `Equal`: same length and `s` is a superset of `s2`. -/
def Set.Equal (s s2 : Set T) : Bool :=
  (Set.Len s == Set.Len s2) && Set.IsSuperset s s2

/-- Generic `Set[T].List`: one append loop over the keys, no sorting. -/
def Set.List (s : Set T) : List T :=
  s.foldl (fun res key => res ++ [key]) []

/-- `Pop` removes and returns the first iterated key, with `true`; on an
empty map the loop body never runs and the zero value with `false` is
returned.  Result: (item, ok, state of the map afterwards). -/
def Set.Pop [Inhabited T] (s : Set T) : T × Bool × Set T :=
  match s with
  | [] => (default, false, [])
  | key :: rest => (key, true, (key :: rest).erase key)

/-- `Clone` returns a new Set with a copy of `s` (a fresh map built by
`NewFrom`). -/
def Set.Clone (s : Set T) : Set T :=
  NewFrom s

/-- `lessInt64` from int64.go. -/
def lessInt64 (lhs rhs : Int) : Bool :=
  decide (lhs < rhs)

/-- Model of `sort.Sort(sortableSliceOfInt64(...))`: sorts ascending with
respect to the `Less` order `lessInt64`, i.e. into non-decreasing order. -/
def sortInt64 (l : List Int) : List Int :=
  List.insertionSort (fun a b => a ≤ b) l

/-- `Int64` from int64.go: a set of int64 keys. -/
abbrev Int64 : Type := Set Int

/-- `Int64.List` returns the contents as a sorted int64 slice:
an append loop over the keys followed by `sort.Sort`. -/
def Int64.List (s : Int64) : List Int :=
  sortInt64 (s.foldl (fun res key => res ++ [key]) [])

/-- A store of Go map values, addressed by index: models the reference
semantics of Go maps (`make` allocates, a method receiver is a reference). -/
abbrev Heap (T : Type) : Type := List (Set T)

/-- Read the map value a reference points to. -/
def getAt (h : Heap T) (r : Nat) : Set T :=
  h.getD r []

/-- Overwrite the map value a reference points to (in-place mutation). -/
def setAt (h : Heap T) (r : Nat) (v : Set T) : Heap T :=
  h.set r v

/-- `make(map[T]struct...)`: allocate a fresh map, returning its reference. -/
def allocOp (h : Heap T) (v : Set T) : Heap T × Nat :=
  (h ++ [v], h.length)

/-- `s.Clone()` at reference `r`: `NewFrom` allocates a fresh map and copies
the keys of `r` into it; the reference of the fresh map is returned. -/
def cloneOp (h : Heap T) (r : Nat) : Heap T × Nat :=
  allocOp h (Set.Clone (getAt h r))

/-- `s.Insert(items...)` at reference `r`: mutates the map at `r`. -/
def insertOp (h : Heap T) (r : Nat) (items : List T) : Heap T :=
  setAt h r (Set.Insert (getAt h r) items)

/-- `s.Delete(items...)` at reference `r`: mutates the map at `r`. -/
def deleteOp (h : Heap T) (r : Nat) (items : List T) : Heap T :=
  setAt h r (Set.Delete (getAt h r) items)

/-- `s.Merge(s2)` with receiver reference `rA` and argument reference `rB`:
mutates the map at `rA` and returns the receiver reference itself. -/
def mergeOp (h : Heap T) (rA rB : Nat) : Heap T × Nat :=
  (setAt h rA (Set.Merge (getAt h rA) (getAt h rB)), rA)

/-! ## Basic lemmas about the Go-map primitives -/

lemma contains_iff (s : Set T) (x : T) : Set.Contains s x = true ↔ x ∈ s := by
  simp [Set.Contains]

lemma mem_goInsert {s : Set T} {k x : T} : x ∈ goInsert s k ↔ x ∈ s ∨ x = k := by
  unfold goInsert
  by_cases h : s.contains k = true
  · rw [if_pos h]
    have hk : k ∈ s := by simpa using h
    constructor
    · exact Or.inl
    · rintro (hx | rfl)
      · exact hx
      · exact hk
  · rw [if_neg h]
    simp [List.mem_append]

lemma goInsert_eq_of_mem {s : Set T} {k : T} (hk : k ∈ s) : goInsert s k = s := by
  unfold goInsert
  simp [hk]

lemma goInsert_eq_of_not_mem {s : Set T} {k : T} (hk : k ∉ s) : goInsert s k = s ++ [k] := by
  unfold goInsert
  simp [hk]

lemma nodup_goInsert {s : Set T} (k : T) (h : s.Nodup) : (goInsert s k).Nodup := by
  by_cases hk : k ∈ s
  · rw [goInsert_eq_of_mem hk]
    exact h
  · rw [goInsert_eq_of_not_mem hk]
    refine List.Nodup.append h (List.nodup_singleton k) ?_
    intro a ha hak
    rw [List.mem_singleton] at hak
    exact hk (hak ▸ ha)

lemma length_goInsert (s : Set T) (k : T) : (goInsert s k).length ≤ s.length + 1 := by
  by_cases hk : k ∈ s
  · rw [goInsert_eq_of_mem hk]
    omega
  · rw [goInsert_eq_of_not_mem hk]
    simp

lemma mem_foldl_goInsert (l : List T) (acc : Set T) (x : T) :
    x ∈ l.foldl goInsert acc ↔ x ∈ acc ∨ x ∈ l := by
  induction l generalizing acc with
  | nil => simp
  | cons k rest ih =>
      simp only [List.foldl_cons, ih, mem_goInsert, List.mem_cons]
      tauto

lemma nodup_foldl_goInsert (l : List T) (acc : Set T) (h : acc.Nodup) :
    (l.foldl goInsert acc).Nodup := by
  induction l generalizing acc with
  | nil => simpa
  | cons k rest ih => exact ih _ (nodup_goInsert k h)

lemma length_foldl_goInsert (l : List T) (acc : Set T) :
    (l.foldl goInsert acc).length ≤ acc.length + l.length := by
  induction l generalizing acc with
  | nil => simp
  | cons k rest ih =>
      simp only [List.foldl_cons, List.length_cons]
      have h1 := ih (goInsert acc k)
      have h2 := length_goInsert acc k
      omega

/-! ## Conditional-insert and append loops reduce to filters -/

lemma foldl_insertIf_eq_filter (p : T → Bool) (l : List T) (acc : Set T) :
    l.foldl (fun r k => if p k then goInsert r k else r) acc
      = (l.filter p).foldl goInsert acc := by
  induction l generalizing acc with
  | nil => rfl
  | cons k rest ih => by_cases hk : p k = true <;> simp [List.filter_cons, hk, ih]

lemma foldl_insertIfNot_eq_filter (p : T → Bool) (l : List T) (acc : Set T) :
    l.foldl (fun r k => if p k then r else goInsert r k) acc
      = (l.filter (fun k => !p k)).foldl goInsert acc := by
  induction l generalizing acc with
  | nil => rfl
  | cons k rest ih => by_cases hk : p k = true <;> simp [List.filter_cons, hk, ih]

lemma foldl_append_eq (l acc : List T) :
    l.foldl (fun r k => r ++ [k]) acc = acc ++ l := by
  induction l generalizing acc with
  | nil => simp
  | cons k rest ih => simp [ih]

lemma foldl_appendIf_eq (p : T → Bool) (l acc : List T) :
    l.foldl (fun r k => if p k then r ++ [k] else r) acc = acc ++ l.filter p := by
  induction l generalizing acc with
  | nil => simp
  | cons k rest ih => by_cases hk : p k = true <;> simp [List.filter_cons, hk, ih]

lemma foldl_appendIfNot_eq (p : T → Bool) (l acc : List T) :
    l.foldl (fun r k => if p k then r else r ++ [k]) acc
      = acc ++ l.filter (fun k => !p k) := by
  induction l generalizing acc with
  | nil => simp
  | cons k rest ih => by_cases hk : p k = true <;> simp [List.filter_cons, hk, ih]

/-! ## The paired Diff loop computes its two components independently -/

lemma diff_fold_fst (s2 : Set T) (l : List T) (pr : Set T × Set T) :
    (l.foldl (fun (pr : Set T × Set T) key =>
        if Set.Contains s2 key then (pr.1, goInsert pr.2 key)
        else (goInsert pr.1 key, pr.2)) pr).1
      = l.foldl (fun r key => if Set.Contains s2 key then r else goInsert r key) pr.1 := by
  induction l generalizing pr with
  | nil => rfl
  | cons k rest ih => by_cases hk : Set.Contains s2 k = true <;> simp [hk, ih]

lemma diff_fold_snd (s2 : Set T) (l : List T) (pr : Set T × Set T) :
    (l.foldl (fun (pr : Set T × Set T) key =>
        if Set.Contains s2 key then (pr.1, goInsert pr.2 key)
        else (goInsert pr.1 key, pr.2)) pr).2
      = l.foldl (fun r key => if Set.Contains s2 key then goInsert r key else r) pr.2 := by
  induction l generalizing pr with
  | nil => rfl
  | cons k rest ih => by_cases hk : Set.Contains s2 k = true <;> simp [hk, ih]

lemma diffSlice_fold_fst (s2 : Set T) (l : List T) (pr : List T × List T) :
    (l.foldl (fun (pr : List T × List T) key =>
        if Set.Contains s2 key then (pr.1, pr.2 ++ [key])
        else (pr.1 ++ [key], pr.2)) pr).1
      = l.foldl (fun r key => if Set.Contains s2 key then r else r ++ [key]) pr.1 := by
  induction l generalizing pr with
  | nil => rfl
  | cons k rest ih => by_cases hk : Set.Contains s2 k = true <;> simp [hk, ih]

lemma diffSlice_fold_snd (s2 : Set T) (l : List T) (pr : List T × List T) :
    (l.foldl (fun (pr : List T × List T) key =>
        if Set.Contains s2 key then (pr.1, pr.2 ++ [key])
        else (pr.1 ++ [key], pr.2)) pr).2
      = l.foldl (fun r key => if Set.Contains s2 key then r ++ [key] else r) pr.2 := by
  induction l generalizing pr with
  | nil => rfl
  | cons k rest ih => by_cases hk : Set.Contains s2 k = true <;> simp [hk, ih]

/-! ## Membership and no-duplicates facts for each operation -/

lemma mem_New (items : List T) (x : T) : x ∈ New items ↔ x ∈ items := by
  unfold New Set.Insert
  rw [mem_foldl_goInsert]
  simp

lemma nodup_New (items : List T) : (New items).Nodup :=
  nodup_foldl_goInsert _ _ List.nodup_nil

lemma mem_NewFrom (m : List T) (x : T) : x ∈ NewFrom m ↔ x ∈ m := by
  unfold NewFrom
  rw [mem_foldl_goInsert]
  simp

lemma nodup_NewFrom (m : List T) : (NewFrom m).Nodup :=
  nodup_foldl_goInsert _ _ List.nodup_nil

lemma mem_Insert (s : Set T) (items : List T) (x : T) :
    x ∈ Set.Insert s items ↔ x ∈ s ∨ x ∈ items := by
  unfold Set.Insert
  exact mem_foldl_goInsert items s x

lemma nodup_Insert (s : Set T) (items : List T) (hs : s.Nodup) :
    (Set.Insert s items).Nodup :=
  nodup_foldl_goInsert _ _ hs

lemma nodup_Delete (items : List T) : ∀ (s : Set T), s.Nodup → (Set.Delete s items).Nodup := by
  unfold Set.Delete
  induction items with
  | nil => intro s hs; simpa
  | cons k rest ih =>
      intro s hs
      exact ih (s.erase k) (hs.erase k)

lemma mem_Delete (items : List T) :
    ∀ (s : Set T), s.Nodup → ∀ x, (x ∈ Set.Delete s items ↔ x ∈ s ∧ x ∉ items) := by
  unfold Set.Delete
  induction items with
  | nil => intro s _ x; simp
  | cons k rest ih =>
      intro s hs x
      simp only [List.foldl_cons]
      rw [ih (s.erase k) (hs.erase k) x, List.Nodup.mem_erase_iff hs]
      simp only [List.mem_cons]
      tauto

lemma mem_Union (s s2 : Set T) (x : T) : x ∈ Set.Union s s2 ↔ x ∈ s ∨ x ∈ s2 := by
  unfold Set.Union
  rw [mem_foldl_goInsert, mem_foldl_goInsert]
  simp

lemma nodup_Union (s s2 : Set T) : (Set.Union s s2).Nodup :=
  nodup_foldl_goInsert _ _ (nodup_foldl_goInsert _ _ List.nodup_nil)

lemma mem_Difference (s s2 : Set T) (x : T) :
    x ∈ Set.Difference s s2 ↔ x ∈ s ∧ x ∉ s2 := by
  unfold Set.Difference
  rw [foldl_insertIfNot_eq_filter, mem_foldl_goInsert]
  simp [List.mem_filter, Set.Contains]

lemma nodup_Difference (s s2 : Set T) : (Set.Difference s s2).Nodup := by
  unfold Set.Difference
  rw [foldl_insertIfNot_eq_filter]
  exact nodup_foldl_goInsert _ _ List.nodup_nil

lemma mem_Intersection (s s2 : Set T) (x : T) :
    x ∈ Set.Intersection s s2 ↔ x ∈ s ∧ x ∈ s2 := by
  simp only [Set.Intersection]
  by_cases h : Set.Len s < Set.Len s2
  · rw [if_pos h, if_pos h, foldl_insertIf_eq_filter, mem_foldl_goInsert]
    simp [List.mem_filter, Set.Contains]
  · rw [if_neg h, if_neg h, foldl_insertIf_eq_filter, mem_foldl_goInsert]
    simp [List.mem_filter, Set.Contains]
    tauto

lemma nodup_Intersection (s s2 : Set T) : (Set.Intersection s s2).Nodup := by
  simp only [Set.Intersection]
  by_cases h : Set.Len s < Set.Len s2
  · rw [if_pos h, if_pos h, foldl_insertIf_eq_filter]
    exact nodup_foldl_goInsert _ _ List.nodup_nil
  · rw [if_neg h, if_neg h, foldl_insertIf_eq_filter]
    exact nodup_foldl_goInsert _ _ List.nodup_nil

lemma mem_Merge (s s2 : Set T) (x : T) : x ∈ Set.Merge s s2 ↔ x ∈ s ∨ x ∈ s2 := by
  unfold Set.Merge
  exact mem_foldl_goInsert s2 s x

lemma mem_Clone (s : Set T) (x : T) : x ∈ Set.Clone s ↔ x ∈ s := by
  unfold Set.Clone
  exact mem_NewFrom s x

lemma list_eq (s : Set T) : Set.List s = s := by
  unfold Set.List
  rw [foldl_append_eq]
  simp

/-! ## Diff components -/

lemma diff_added_mem (s s2 : Set T) (x : T) :
    x ∈ (Set.Diff s s2).1 ↔ x ∈ s2 ∧ x ∉ s := by
  show x ∈ s2.foldl
      (fun added key => if Set.Contains s key then added else goInsert added key) [] ↔ _
  rw [foldl_insertIfNot_eq_filter, mem_foldl_goInsert]
  simp [List.mem_filter, Set.Contains]

lemma diff_removed_mem (s s2 : Set T) (x : T) :
    x ∈ (Set.Diff s s2).2.1 ↔ x ∈ s ∧ x ∉ s2 := by
  show x ∈ (s.foldl (fun (pr : Set T × Set T) key =>
      if Set.Contains s2 key then (pr.1, goInsert pr.2 key)
      else (goInsert pr.1 key, pr.2)) ([], [])).1 ↔ _
  rw [diff_fold_fst, foldl_insertIfNot_eq_filter, mem_foldl_goInsert]
  simp [List.mem_filter, Set.Contains]

lemma diff_remained_mem (s s2 : Set T) (x : T) :
    x ∈ (Set.Diff s s2).2.2 ↔ x ∈ s ∧ x ∈ s2 := by
  show x ∈ (s.foldl (fun (pr : Set T × Set T) key =>
      if Set.Contains s2 key then (pr.1, goInsert pr.2 key)
      else (goInsert pr.1 key, pr.2)) ([], [])).2 ↔ _
  rw [diff_fold_snd, foldl_insertIf_eq_filter, mem_foldl_goInsert]
  simp [List.mem_filter, Set.Contains]

lemma diff_added_nodup (s s2 : Set T) : (Set.Diff s s2).1.Nodup := by
  show (s2.foldl
      (fun added key => if Set.Contains s key then added else goInsert added key) []).Nodup
  rw [foldl_insertIfNot_eq_filter]
  exact nodup_foldl_goInsert _ _ List.nodup_nil

lemma diff_removed_nodup (s s2 : Set T) : (Set.Diff s s2).2.1.Nodup := by
  show ((s.foldl (fun (pr : Set T × Set T) key =>
      if Set.Contains s2 key then (pr.1, goInsert pr.2 key)
      else (goInsert pr.1 key, pr.2)) ([], [])).1).Nodup
  rw [diff_fold_fst, foldl_insertIfNot_eq_filter]
  exact nodup_foldl_goInsert _ _ List.nodup_nil

lemma diff_remained_nodup (s s2 : Set T) : (Set.Diff s s2).2.2.Nodup := by
  show ((s.foldl (fun (pr : Set T × Set T) key =>
      if Set.Contains s2 key then (pr.1, goInsert pr.2 key)
      else (goInsert pr.1 key, pr.2)) ([], [])).2).Nodup
  rw [diff_fold_snd, foldl_insertIf_eq_filter]
  exact nodup_foldl_goInsert _ _ List.nodup_nil

/-! ## Slice variants in closed form -/

lemma differenceSlice_eq (s s2 : Set T) :
    Set.DifferenceSlice s s2 = s.filter (fun k => !Set.Contains s2 k) := by
  unfold Set.DifferenceSlice
  rw [foldl_appendIfNot_eq]
  simp

lemma unionSlice_eq (s s2 : Set T) :
    Set.UnionSlice s s2 = s ++ s2.filter (fun k => !Set.Contains s k) := by
  unfold Set.UnionSlice
  rw [foldl_append_eq, foldl_appendIfNot_eq]
  simp

lemma mem_intersectionSlice (s s2 : Set T) (x : T) :
    x ∈ Set.IntersectionSlice s s2 ↔ x ∈ s ∧ x ∈ s2 := by
  simp only [Set.IntersectionSlice]
  by_cases h : Set.Len s < Set.Len s2
  · rw [if_pos h, if_pos h, foldl_appendIf_eq]
    simp [List.mem_filter, Set.Contains]
  · rw [if_neg h, if_neg h, foldl_appendIf_eq]
    simp [List.mem_filter, Set.Contains]
    tauto

lemma diffSlice_added_eq (s s2 : Set T) :
    (Set.DiffSlice s s2).1 = s2.filter (fun k => !Set.Contains s k) := by
  show s2.foldl
      (fun added key => if Set.Contains s key then added else added ++ [key]) [] = _
  rw [foldl_appendIfNot_eq]
  simp

lemma diffSlice_removed_eq (s s2 : Set T) :
    (Set.DiffSlice s s2).2.1 = s.filter (fun k => !Set.Contains s2 k) := by
  show (s.foldl (fun (pr : List T × List T) key =>
      if Set.Contains s2 key then (pr.1, pr.2 ++ [key])
      else (pr.1 ++ [key], pr.2)) ([], [])).1 = _
  rw [diffSlice_fold_fst, foldl_appendIfNot_eq]
  simp

lemma diffSlice_remained_eq (s s2 : Set T) :
    (Set.DiffSlice s s2).2.2 = s.filter (fun k => Set.Contains s2 k) := by
  show (s.foldl (fun (pr : List T × List T) key =>
      if Set.Contains s2 key then (pr.1, pr.2 ++ [key])
      else (pr.1 ++ [key], pr.2)) ([], [])).2 = _
  rw [diffSlice_fold_snd, foldl_appendIf_eq]
  simp

/-! ## Relational predicates -/

lemma isSuperset_iff (s s2 : Set T) : Set.IsSuperset s s2 = true ↔ ∀ x ∈ s2, x ∈ s := by
  simp [Set.IsSuperset, List.all_eq_true, Set.Contains]

lemma isSubset_iff (s s2 : Set T) : Set.IsSubset s s2 = true ↔ ∀ x ∈ s, x ∈ s2 := by
  simp [Set.IsSubset, List.all_eq_true, Set.Contains]

lemma length_eq_of_mem_iff {A B : Set T} (hA : A.Nodup) (hB : B.Nodup)
    (h : ∀ x, x ∈ A ↔ x ∈ B) : A.length = B.length := by
  have hfin : A.toFinset = B.toFinset := by
    ext a
    simp only [List.mem_toFinset]
    exact h a
  calc A.length = A.toFinset.card := (List.toFinset_card_of_nodup hA).symm
    _ = B.toFinset.card := by rw [hfin]
    _ = B.length := List.toFinset_card_of_nodup hB

lemma mem_iff_of_superset_of_length {A B : Set T} (hA : A.Nodup) (hB : B.Nodup)
    (hlen : A.length = B.length) (hsup : ∀ x ∈ B, x ∈ A) : ∀ x, x ∈ A ↔ x ∈ B := by
  have hsub : B.toFinset ⊆ A.toFinset := by
    intro a ha
    rw [List.mem_toFinset] at ha ⊢
    exact hsup a ha
  have hcard : A.toFinset.card ≤ B.toFinset.card := by
    rw [List.toFinset_card_of_nodup hA, List.toFinset_card_of_nodup hB]
    omega
  have heq : B.toFinset = A.toFinset := Finset.eq_of_subset_of_card_le hsub hcard
  intro x
  constructor
  · intro hx
    have hx' : x ∈ A.toFinset := by rwa [List.mem_toFinset]
    rw [← heq, List.mem_toFinset] at hx'
    exact hx'
  · exact fun hx => hsup x hx

lemma equal_true_iff {A B : Set T} (hA : A.Nodup) (hB : B.Nodup) :
    Set.Equal A B = true ↔ ∀ x, x ∈ A ↔ x ∈ B := by
  unfold Set.Equal Set.Len
  rw [Bool.and_eq_true, beq_iff_eq, isSuperset_iff]
  constructor
  · rintro ⟨hlen, hsup⟩
    exact mem_iff_of_superset_of_length hA hB hlen hsup
  · intro h
    exact ⟨length_eq_of_mem_iff hA hB h, fun x hx => (h x).mpr hx⟩

/-! ## Heap access -/

lemma getAt_snoc_lt {h : Heap T} {r : Nat} (hr : r < h.length) (v : Set T) :
    getAt (h ++ [v]) r = getAt h r := by
  unfold getAt
  exact List.getD_append _ _ _ _ hr

lemma getAt_snoc_len (h : Heap T) (v : Set T) : getAt (h ++ [v]) h.length = v := by
  unfold getAt
  simp [List.getD_append_right]

lemma getAt_setAt_self {h : Heap T} {r : Nat} (hr : r < h.length) (v : Set T) :
    getAt (setAt h r v) r = v := by
  unfold getAt setAt
  simp [List.getD, List.getElem?_set, hr]

lemma getAt_setAt_ne {h : Heap T} {r r' : Nat} (hne : r ≠ r') (v : Set T) :
    getAt (setAt h r v) r' = getAt h r' := by
  unfold getAt setAt
  simp [List.getD, List.getElem?_set, hne]

/-! ## Sorted output of the typed (int64) List -/

lemma int64_list_perm (s : Int64) : (Int64.List s).Perm s := by
  unfold Int64.List sortInt64
  rw [foldl_append_eq]
  simpa using List.perm_insertionSort (fun a b : Int => a ≤ b) s

lemma int64_list_sorted (s : Int64) :
    List.Sorted (fun a b : Int => a ≤ b) (Int64.List s) :=
  List.sorted_insertionSort _ _

/-! ## Claim theorems -/

/-- Claim C1, counterexample: the generic `Set[T].List` performs no sort, it
returns the keys in map iteration order.  On the admissible iteration order
13, 12, 11, 1 of the set with content 13, 12, 11, 1 it returns
`[13, 12, 11, 1]`, not the `[1, 11, 12, 13]` the claim requires. -/
theorem generic_list_unsorted_on_13_12_11_1 :
    ¬ (Set.List (New ([13, 12, 11, 1] : List Int)) = [1, 11, 12, 13]) := by
  decide

/-- Claim C1, amended: the typed variants do sort.  `Int64.List` returns
exactly the elements of the set in ascending order and is deterministic
across calls on the same set content: any two map states with the same
membership produce the same slice.  (The generic `Set[T].List` instead
returns the elements unsorted, in map iteration order.) -/
theorem int64_list_sorted_deterministic (s : Int64) (hs : s.Nodup) :
    List.Sorted (fun a b : Int => a ≤ b) (Int64.List s) ∧
    (∀ x, x ∈ Int64.List s ↔ x ∈ s) ∧
    (∀ s' : Int64, s'.Nodup → (∀ x, x ∈ s ↔ x ∈ s') → Int64.List s = Int64.List s') := by
  refine ⟨int64_list_sorted s, fun x => (int64_list_perm s).mem_iff, ?_⟩
  intro s' hs' hmem
  have hperm : (Int64.List s).Perm (Int64.List s') := by
    refine ((int64_list_perm s).trans ?_).trans (int64_list_perm s').symm
    exact (List.perm_ext_iff_of_nodup hs hs').mpr hmem
  exact List.eq_of_perm_of_sorted hperm (int64_list_sorted s) (int64_list_sorted s')

/-- Claim C1, witness: on the set with content 13, 12, 11, 1 the sorted
`Int64.List` yields `[1, 11, 12, 13]`. -/
theorem int64_list_sorted_deterministic_witness :
    ([13, 12, 11, 1] : Int64).Nodup ∧
    Int64.List ([13, 12, 11, 1] : Int64) = [1, 11, 12, 13] ∧
    (List.Sorted (fun a b : Int => a ≤ b) (Int64.List ([13, 12, 11, 1] : Int64)) ∧
     (∀ x, x ∈ Int64.List ([13, 12, 11, 1] : Int64) ↔ x ∈ ([13, 12, 11, 1] : Int64)) ∧
     (∀ s' : Int64, s'.Nodup → (∀ x, x ∈ ([13, 12, 11, 1] : Int64) ↔ x ∈ s') →
        Int64.List ([13, 12, 11, 1] : Int64) = Int64.List s')) :=
  ⟨by decide, by decide, int64_list_sorted_deterministic [13, 12, 11, 1] (by decide)⟩

/-- Claim C2: `Diff(other)` is a three-way partition: `removed` is exactly
the elements of `s` absent from `other`, `added` exactly those of `other`
absent from `s`, `remained` exactly those in both; `removed` united with
`remained` equals `s`, `added` united with `remained` equals `other`, and
the three parts are pairwise disjoint.  (`Set.Diff A B` returns the triple
`(added, removed, remained)`.) -/
theorem diff_three_way_partition (A B : Set T) (hA : A.Nodup) (hB : B.Nodup) :
    (∀ x, x ∈ (Set.Diff A B).2.1 ↔ x ∈ A ∧ x ∉ B) ∧
    (∀ x, x ∈ (Set.Diff A B).1 ↔ x ∈ B ∧ x ∉ A) ∧
    (∀ x, x ∈ (Set.Diff A B).2.2 ↔ x ∈ A ∧ x ∈ B) ∧
    Set.Equal (Set.Union (Set.Diff A B).2.1 (Set.Diff A B).2.2) A = true ∧
    Set.Equal (Set.Union (Set.Diff A B).1 (Set.Diff A B).2.2) B = true ∧
    (∀ x, ¬(x ∈ (Set.Diff A B).1 ∧ x ∈ (Set.Diff A B).2.1)) ∧
    (∀ x, ¬(x ∈ (Set.Diff A B).1 ∧ x ∈ (Set.Diff A B).2.2)) ∧
    (∀ x, ¬(x ∈ (Set.Diff A B).2.1 ∧ x ∈ (Set.Diff A B).2.2)) := by
  refine ⟨diff_removed_mem A B, diff_added_mem A B, diff_remained_mem A B, ?_, ?_, ?_, ?_, ?_⟩
  · rw [equal_true_iff (nodup_Union _ _) hA]
    intro x
    rw [mem_Union, diff_removed_mem, diff_remained_mem]
    tauto
  · rw [equal_true_iff (nodup_Union _ _) hB]
    intro x
    rw [mem_Union, diff_added_mem, diff_remained_mem]
    tauto
  · rintro x ⟨h1, h2⟩
    rw [diff_added_mem] at h1
    rw [diff_removed_mem] at h2
    tauto
  · rintro x ⟨h1, h2⟩
    rw [diff_added_mem] at h1
    rw [diff_remained_mem] at h2
    tauto
  · rintro x ⟨h1, h2⟩
    rw [diff_removed_mem] at h1
    rw [diff_remained_mem] at h2
    tauto

/-- Claim C2, witness: the spec scenario A = 1,3,5,7 and B = 3,4,5,6. -/
theorem diff_three_way_partition_witness :
    ([1, 3, 5, 7] : Set Int).Nodup ∧ ([3, 4, 5, 6] : Set Int).Nodup ∧
    (Set.Diff ([1, 3, 5, 7] : Set Int) [3, 4, 5, 6] = ([4, 6], [1, 7], [3, 5])) ∧
    ((∀ x, x ∈ (Set.Diff ([1, 3, 5, 7] : Set Int) [3, 4, 5, 6]).2.1 ↔
        x ∈ ([1, 3, 5, 7] : Set Int) ∧ x ∉ ([3, 4, 5, 6] : Set Int)) ∧
     (∀ x, x ∈ (Set.Diff ([1, 3, 5, 7] : Set Int) [3, 4, 5, 6]).1 ↔
        x ∈ ([3, 4, 5, 6] : Set Int) ∧ x ∉ ([1, 3, 5, 7] : Set Int)) ∧
     (∀ x, x ∈ (Set.Diff ([1, 3, 5, 7] : Set Int) [3, 4, 5, 6]).2.2 ↔
        x ∈ ([1, 3, 5, 7] : Set Int) ∧ x ∈ ([3, 4, 5, 6] : Set Int)) ∧
     Set.Equal (Set.Union (Set.Diff ([1, 3, 5, 7] : Set Int) [3, 4, 5, 6]).2.1
        (Set.Diff ([1, 3, 5, 7] : Set Int) [3, 4, 5, 6]).2.2) [1, 3, 5, 7] = true ∧
     Set.Equal (Set.Union (Set.Diff ([1, 3, 5, 7] : Set Int) [3, 4, 5, 6]).1
        (Set.Diff ([1, 3, 5, 7] : Set Int) [3, 4, 5, 6]).2.2) [3, 4, 5, 6] = true ∧
     (∀ x, ¬(x ∈ (Set.Diff ([1, 3, 5, 7] : Set Int) [3, 4, 5, 6]).1 ∧
        x ∈ (Set.Diff ([1, 3, 5, 7] : Set Int) [3, 4, 5, 6]).2.1)) ∧
     (∀ x, ¬(x ∈ (Set.Diff ([1, 3, 5, 7] : Set Int) [3, 4, 5, 6]).1 ∧
        x ∈ (Set.Diff ([1, 3, 5, 7] : Set Int) [3, 4, 5, 6]).2.2)) ∧
     (∀ x, ¬(x ∈ (Set.Diff ([1, 3, 5, 7] : Set Int) [3, 4, 5, 6]).2.1 ∧
        x ∈ (Set.Diff ([1, 3, 5, 7] : Set Int) [3, 4, 5, 6]).2.2))) :=
  ⟨by decide, by decide, by decide,
   diff_three_way_partition [1, 3, 5, 7] [3, 4, 5, 6] (by decide) (by decide)⟩

/-- Claim C3: membership in `Union A B` is membership in `A` or in `B`;
`Union` is commutative up to `Equal`; and the cardinality of the union is at
most the sum of the operand cardinalities. -/
theorem union_membership_comm_card (A B : Set T) :
    (∀ x, x ∈ Set.Union A B ↔ x ∈ A ∨ x ∈ B) ∧
    Set.Equal (Set.Union A B) (Set.Union B A) = true ∧
    Set.Len (Set.Union A B) ≤ Set.Len A + Set.Len B := by
  refine ⟨mem_Union A B, ?_, ?_⟩
  · rw [equal_true_iff (nodup_Union A B) (nodup_Union B A)]
    intro x
    rw [mem_Union, mem_Union]
    tauto
  · unfold Set.Union Set.Len
    have h1 := length_foldl_goInsert B (A.foldl goInsert [])
    have h2 := length_foldl_goInsert A ([] : Set T)
    simp only [List.length_nil, Nat.zero_add] at h2
    omega

/-- Claim C4: membership in `Intersection A B` is membership in both `A` and
`B` — the characterization holds regardless of which operand the code walks
(the size test only picks the branch) — and Intersection is commutative up
to `Equal`. -/
theorem intersection_membership_comm (A B : Set T) :
    (∀ x, x ∈ Set.Intersection A B ↔ x ∈ A ∧ x ∈ B) ∧
    Set.Equal (Set.Intersection A B) (Set.Intersection B A) = true := by
  refine ⟨mem_Intersection A B, ?_⟩
  rw [equal_true_iff (nodup_Intersection A B) (nodup_Intersection B A)]
  intro x
  rw [mem_Intersection, mem_Intersection]
  tauto

/-- Claim C5: `Equal` returns true iff membership is identical, and the
implemented check (same length plus `IsSuperset`) is equivalent to
`IsSubset` both ways plus equal cardinality. -/
theorem equal_characterization (A B : Set T) (hA : A.Nodup) (hB : B.Nodup) :
    (Set.Equal A B = true ↔ ∀ x, x ∈ A ↔ x ∈ B) ∧
    (Set.Equal A B = true ↔
      (Set.IsSubset A B = true ∧ Set.IsSubset B A = true ∧ Set.Len A = Set.Len B)) := by
  refine ⟨equal_true_iff hA hB, ?_⟩
  rw [equal_true_iff hA hB, isSubset_iff, isSubset_iff]
  constructor
  · intro h
    exact ⟨fun x hx => (h x).mp hx, fun x hx => (h x).mpr hx, length_eq_of_mem_iff hA hB h⟩
  · rintro ⟨h1, h2, _⟩ x
    exact ⟨fun hx => h1 x hx, fun hx => h2 x hx⟩

/-- Claim C5, witness: the sets 1,2 and 2,1 (equal as sets). -/
theorem equal_characterization_witness :
    ([1, 2] : Set Int).Nodup ∧ ([2, 1] : Set Int).Nodup ∧
    ((Set.Equal ([1, 2] : Set Int) [2, 1] = true ↔
        ∀ x, x ∈ ([1, 2] : Set Int) ↔ x ∈ ([2, 1] : Set Int)) ∧
     (Set.Equal ([1, 2] : Set Int) [2, 1] = true ↔
        (Set.IsSubset ([1, 2] : Set Int) [2, 1] = true ∧
         Set.IsSubset ([2, 1] : Set Int) [1, 2] = true ∧
         Set.Len ([1, 2] : Set Int) = Set.Len ([2, 1] : Set Int)))) :=
  ⟨by decide, by decide, equal_characterization [1, 2] [2, 1] (by decide) (by decide)⟩

/-- Claim C6: `Pop` on the empty set returns the zero value with found =
false and leaves the set empty; on a non-empty set it returns some member
with found = true, and the set afterwards is the original minus that member,
with cardinality exactly one less. -/
theorem pop_spec [Inhabited T] (s : Set T) (hs : s.Nodup) :
    (s = [] → Set.Pop s = (default, false, [])) ∧
    (s ≠ [] → ∃ x, x ∈ s ∧ (Set.Pop s).1 = x ∧ (Set.Pop s).2.1 = true ∧
      (∀ y, y ∈ (Set.Pop s).2.2 ↔ y ∈ s ∧ y ≠ x) ∧
      Set.Len (Set.Pop s).2.2 + 1 = Set.Len s) := by
  constructor
  · rintro rfl
    rfl
  · intro hne
    cases s with
    | nil => exact absurd rfl hne
    | cons k rest =>
        have hk : k ∉ rest := (List.nodup_cons.mp hs).1
        refine ⟨k, List.mem_cons_self k rest, rfl, rfl, ?_, ?_⟩
        · intro y
          show y ∈ (k :: rest).erase k ↔ _
          rw [List.erase_cons_head]
          constructor
          · intro hy
            refine ⟨List.mem_cons_of_mem k hy, ?_⟩
            rintro rfl
            exact hk hy
          · rintro ⟨hy, hne'⟩
            rcases List.mem_cons.mp hy with h | h
            · exact absurd h hne'
            · exact h
        · show ((k :: rest).erase k).length + 1 = (k :: rest).length
          rw [List.erase_cons_head]
          simp

/-- Claim C6, witness: Pop on the empty int set yields the zero value 0 with
false; on the set 1, 2, 4 it pops a member leaving two elements. -/
theorem pop_spec_witness :
    Set.Pop ([] : Set Int) = (0, false, []) ∧
    ([1, 2, 4] : Set Int).Nodup ∧
    ((([1, 2, 4] : Set Int) = [] → Set.Pop ([1, 2, 4] : Set Int) = (default, false, [])) ∧
     (([1, 2, 4] : Set Int) ≠ [] → ∃ x, x ∈ ([1, 2, 4] : Set Int) ∧
        (Set.Pop ([1, 2, 4] : Set Int)).1 = x ∧
        (Set.Pop ([1, 2, 4] : Set Int)).2.1 = true ∧
        (∀ y, y ∈ (Set.Pop ([1, 2, 4] : Set Int)).2.2 ↔
           y ∈ ([1, 2, 4] : Set Int) ∧ y ≠ x) ∧
        Set.Len (Set.Pop ([1, 2, 4] : Set Int)).2.2 + 1 = Set.Len ([1, 2, 4] : Set Int))) :=
  ⟨rfl, by decide, pop_spec [1, 2, 4] (by decide)⟩

/-- Claim C7: every slice-returning algebra variant contains exactly the
elements of its set-returning counterpart: UnionSlice vs Union,
DifferenceSlice vs Difference, IntersectionSlice vs Intersection, and the
three components of DiffSlice vs the three sets of Diff. -/
theorem slice_variants_agree (A B : Set T) :
    (∀ x, x ∈ Set.UnionSlice A B ↔ x ∈ Set.Union A B) ∧
    (∀ x, x ∈ Set.DifferenceSlice A B ↔ x ∈ Set.Difference A B) ∧
    (∀ x, x ∈ Set.IntersectionSlice A B ↔ x ∈ Set.Intersection A B) ∧
    (∀ x, x ∈ (Set.DiffSlice A B).1 ↔ x ∈ (Set.Diff A B).1) ∧
    (∀ x, x ∈ (Set.DiffSlice A B).2.1 ↔ x ∈ (Set.Diff A B).2.1) ∧
    (∀ x, x ∈ (Set.DiffSlice A B).2.2 ↔ x ∈ (Set.Diff A B).2.2) := by
  refine ⟨?_, ?_, ?_, ?_, ?_, ?_⟩ <;> intro x
  · rw [unionSlice_eq, mem_Union]
    simp [List.mem_append, List.mem_filter, Set.Contains]
    tauto
  · rw [differenceSlice_eq, mem_Difference]
    simp [List.mem_filter, Set.Contains]
  · rw [mem_intersectionSlice, mem_Intersection]
  · rw [diffSlice_added_eq, diff_added_mem]
    simp [List.mem_filter, Set.Contains]
  · rw [diffSlice_removed_eq, diff_removed_mem]
    simp [List.mem_filter, Set.Contains]
  · rw [diffSlice_remained_eq, diff_remained_mem]
    simp [List.mem_filter, Set.Contains]

/-- Claim C8: `Clone` builds a set with the same membership in fresh storage:
the clone lives at a reference different from the original's, and Insert or
Delete through either reference leaves the membership seen through the other
reference unchanged. -/
theorem clone_independent (h : Heap T) (r : Nat) (hr : r < h.length) (items : List T) :
    (cloneOp h r).2 ≠ r ∧
    (∀ x, x ∈ getAt (cloneOp h r).1 (cloneOp h r).2 ↔ x ∈ getAt h r) ∧
    (∀ x, x ∈ getAt (insertOp (cloneOp h r).1 (cloneOp h r).2 items) r ↔ x ∈ getAt h r) ∧
    (∀ x, x ∈ getAt (deleteOp (cloneOp h r).1 (cloneOp h r).2 items) r ↔ x ∈ getAt h r) ∧
    (∀ x, x ∈ getAt (insertOp (cloneOp h r).1 r items) (cloneOp h r).2 ↔ x ∈ getAt h r) ∧
    (∀ x, x ∈ getAt (deleteOp (cloneOp h r).1 r items) (cloneOp h r).2 ↔ x ∈ getAt h r) := by
  have hne : (cloneOp h r).2 ≠ r := Nat.ne_of_gt hr
  have h1r : getAt (cloneOp h r).1 r = getAt h r := getAt_snoc_lt hr _
  have h1c : getAt (cloneOp h r).1 (cloneOp h r).2 = Set.Clone (getAt h r) :=
    getAt_snoc_len h _
  refine ⟨hne, ?_, ?_, ?_, ?_, ?_⟩
  · intro x
    rw [h1c, mem_Clone]
  · intro x
    unfold insertOp
    rw [getAt_setAt_ne hne, h1r]
  · intro x
    unfold deleteOp
    rw [getAt_setAt_ne hne, h1r]
  · intro x
    unfold insertOp
    rw [getAt_setAt_ne (Ne.symm hne), h1c, mem_Clone]
  · intro x
    unfold deleteOp
    rw [getAt_setAt_ne (Ne.symm hne), h1c, mem_Clone]

/-- Claim C8, witness: a one-map store holding the set 1, 2; inserting or
deleting 5 through either of original and clone leaves the other unchanged. -/
theorem clone_independent_witness :
    0 < ([[1, 2]] : Heap Int).length ∧
    ((cloneOp ([[1, 2]] : Heap Int) 0).2 ≠ 0 ∧
     (∀ x, x ∈ getAt (cloneOp ([[1, 2]] : Heap Int) 0).1 (cloneOp ([[1, 2]] : Heap Int) 0).2 ↔
        x ∈ getAt ([[1, 2]] : Heap Int) 0) ∧
     (∀ x, x ∈ getAt (insertOp (cloneOp ([[1, 2]] : Heap Int) 0).1
        (cloneOp ([[1, 2]] : Heap Int) 0).2 [5]) 0 ↔ x ∈ getAt ([[1, 2]] : Heap Int) 0) ∧
     (∀ x, x ∈ getAt (deleteOp (cloneOp ([[1, 2]] : Heap Int) 0).1
        (cloneOp ([[1, 2]] : Heap Int) 0).2 [5]) 0 ↔ x ∈ getAt ([[1, 2]] : Heap Int) 0) ∧
     (∀ x, x ∈ getAt (insertOp (cloneOp ([[1, 2]] : Heap Int) 0).1 0 [5])
        (cloneOp ([[1, 2]] : Heap Int) 0).2 ↔ x ∈ getAt ([[1, 2]] : Heap Int) 0) ∧
     (∀ x, x ∈ getAt (deleteOp (cloneOp ([[1, 2]] : Heap Int) 0).1 0 [5])
        (cloneOp ([[1, 2]] : Heap Int) 0).2 ↔ x ∈ getAt ([[1, 2]] : Heap Int) 0)) :=
  ⟨by decide, clone_independent [[1, 2]] 0 (by decide) [5]⟩

/-- Claim C9: `Merge` mutates the receiver in place so that its membership
becomes the union of its previous membership and the argument's, returns the
receiver's own reference (not a copy), leaves the argument's membership
unchanged, and agrees with `Union` computed on the pre-merge receiver. -/
theorem merge_in_place_union (h : Heap T) (rA rB : Nat) (hA : rA < h.length) :
    (mergeOp h rA rB).2 = rA ∧
    (∀ x, x ∈ getAt (mergeOp h rA rB).1 rA ↔ x ∈ getAt h rA ∨ x ∈ getAt h rB) ∧
    (∀ x, x ∈ getAt (mergeOp h rA rB).1 rB ↔ x ∈ getAt h rB) ∧
    (∀ x, x ∈ getAt (mergeOp h rA rB).1 rA ↔
       x ∈ Set.Union (getAt h rA) (getAt h rB)) := by
  have hget : getAt (mergeOp h rA rB).1 rA = Set.Merge (getAt h rA) (getAt h rB) :=
    getAt_setAt_self hA _
  refine ⟨rfl, ?_, ?_, ?_⟩
  · intro x
    rw [hget, mem_Merge]
  · intro x
    by_cases hab : rA = rB
    · subst hab
      rw [hget, mem_Merge]
      tauto
    · show x ∈ getAt (setAt h rA (Set.Merge (getAt h rA) (getAt h rB))) rB ↔ x ∈ getAt h rB
      rw [getAt_setAt_ne hab]
  · intro x
    rw [hget, mem_Merge, mem_Union]

/-- Claim C9, witness: a two-map store holding 1, 2 and 3, 4; merging the
second into the first in place. -/
theorem merge_in_place_union_witness :
    0 < ([[1, 2], [3, 4]] : Heap Int).length ∧
    ((mergeOp ([[1, 2], [3, 4]] : Heap Int) 0 1).2 = 0 ∧
     (∀ x, x ∈ getAt (mergeOp ([[1, 2], [3, 4]] : Heap Int) 0 1).1 0 ↔
        x ∈ getAt ([[1, 2], [3, 4]] : Heap Int) 0 ∨ x ∈ getAt ([[1, 2], [3, 4]] : Heap Int) 1) ∧
     (∀ x, x ∈ getAt (mergeOp ([[1, 2], [3, 4]] : Heap Int) 0 1).1 1 ↔
        x ∈ getAt ([[1, 2], [3, 4]] : Heap Int) 1) ∧
     (∀ x, x ∈ getAt (mergeOp ([[1, 2], [3, 4]] : Heap Int) 0 1).1 0 ↔
        x ∈ Set.Union (getAt ([[1, 2], [3, 4]] : Heap Int) 0)
          (getAt ([[1, 2], [3, 4]] : Heap Int) 1))) :=
  ⟨by decide, merge_in_place_union [[1, 2], [3, 4]] 0 1 (by decide)⟩

/-- Claim C10: `UnionSlice` is duplicate-free: every element of the union
appears in it exactly once (the second loop skips elements already in the
first operand), so its length equals the cardinality of `Union`, even when
the operands overlap. -/
theorem unionSlice_duplicate_free (A B : Set T) (hA : A.Nodup) (hB : B.Nodup) :
    (Set.UnionSlice A B).Nodup ∧
    (∀ x, x ∈ A ∨ x ∈ B → (Set.UnionSlice A B).count x = 1) ∧
    (Set.UnionSlice A B).length = Set.Len (Set.Union A B) := by
  have hmem : ∀ x, x ∈ Set.UnionSlice A B ↔ x ∈ A ∨ x ∈ B := by
    intro x
    rw [unionSlice_eq]
    simp [List.mem_append, List.mem_filter, Set.Contains]
    tauto
  have hnd : (Set.UnionSlice A B).Nodup := by
    rw [unionSlice_eq]
    refine List.Nodup.append hA (List.Nodup.filter _ hB) ?_
    intro a ha haf
    rw [List.mem_filter] at haf
    have hnot : a ∉ A := by simpa [Set.Contains] using haf.2
    exact hnot ha
  refine ⟨hnd, ?_, ?_⟩
  · intro x hx
    exact List.count_eq_one_of_mem hnd ((hmem x).mpr hx)
  · exact length_eq_of_mem_iff hnd (nodup_Union A B)
      (fun x => by rw [hmem x, mem_Union])

/-- Claim C10, witness: the overlapping operands 1, 2 and 2, 3 give the
duplicate-free slice of length 3. -/
theorem unionSlice_duplicate_free_witness :
    ([1, 2] : Set Int).Nodup ∧ ([2, 3] : Set Int).Nodup ∧
    Set.UnionSlice ([1, 2] : Set Int) [2, 3] = [1, 2, 3] ∧
    ((Set.UnionSlice ([1, 2] : Set Int) [2, 3]).Nodup ∧
     (∀ x, x ∈ ([1, 2] : Set Int) ∨ x ∈ ([2, 3] : Set Int) →
        (Set.UnionSlice ([1, 2] : Set Int) [2, 3]).count x = 1) ∧
     (Set.UnionSlice ([1, 2] : Set Int) [2, 3]).length =
        Set.Len (Set.Union ([1, 2] : Set Int) [2, 3])) :=
  ⟨by decide, by decide, by decide,
   unionSlice_duplicate_free [1, 2] [2, 3] (by decide) (by decide)⟩

end sets
